import Mathlib

/-!
Verification development for the RTU MIREA schedule API scraper
(`main.py` + `config.py`): a shallow embedding of its pure data
manipulation — time parsing, DOM-text normalization, per-day schedule
assembly, the on-disk cache gateway, and the week aggregator — together
with theorems settling the specification claims.

Strings are embedded as `List Char`.  Python semantics notes:
* `str.strip`, `\s` in regexes and `str.lower` also handle some
  non-ASCII whitespace / alphabets; the embedding covers ASCII
  whitespace and the Latin + Cyrillic letters the program manipulates,
  which is exhaustive for every string the claims touch.
* `float('inf')` (the unparsable-time sort key) is embedded as `none`
  in `Option Int`, ordered above every `some`.
-/

/-- ASCII whitespace, as matched by `str.strip` / regex `\s` (" \t\n\r\x0b\x0c"). -/
def isPySpace (c : Char) : Bool :=
  c = ' ' || c = '\t' || c = '\n' || c = '\r' || c = '\x0b' || c = '\x0c'

/-- Python `str.strip()`: drop leading and trailing whitespace. -/
def pyStrip (l : List Char) : List Char :=
  ((l.dropWhile isPySpace).reverse.dropWhile isPySpace).reverse

/-- One character of Python `str.lower()`, covering ASCII Latin and the
Cyrillic А-Я / Ё range used by the scraper's keyword checks. -/
def pyLowerChar (c : Char) : Char :=
  if 'A' ≤ c && c ≤ 'Z' then Char.ofNat (c.toNat + 32)
  else if 'А' ≤ c && c ≤ 'Я' then Char.ofNat (c.toNat + 32)
  else if c = 'Ё' then 'ё'
  else c

/-- Python `str.lower()`. -/
def pyLower (l : List Char) : List Char := l.map pyLowerChar

/-- Python substring test `needle in hay`. -/
def containsSub (needle : List Char) : List Char → Bool
  | [] => needle.isEmpty
  | c :: rest => needle.isPrefixOf (c :: rest) || containsSub needle rest

/-- Python `s.split(sep)` for a single-character separator: every
occurrence splits, empty components are kept, result is never empty. -/
def pySplitCh (sep : Char) : List Char → List (List Char)
  | [] => [[]]
  | c :: rest =>
    if c = sep then [] :: pySplitCh sep rest
    else
      match pySplitCh sep rest with
      | [] => [[c]]
      | h :: t => (c :: h) :: t

/-- Python `s.split(" ", 1)`: the part before the first space, and (when a
space exists) everything after it. -/
def pySplitSpace1 : List Char → List Char × Option (List Char)
  | [] => ([], none)
  | c :: rest =>
    if c = ' ' then ([], some rest)
    else
      let p := pySplitSpace1 rest
      (c :: p.1, p.2)

/-- Python `s.split(" - ")[0]`: the characters before the first occurrence
of the three-character separator " - " (the whole string if none). -/
def splitDashHead : List Char → List Char
  | ' ' :: '-' :: ' ' :: _ => []
  | c :: rest => c :: splitDashHead rest
  | [] => []

/-- Digit tail of Python `int(...)` parsing: decimal digits with single
underscores allowed between digits (`acc` is the value read so far). -/
def pyDigitsAux : Nat → List Char → Option Nat
  | acc, [] => some acc
  | acc, c :: rest =>
    if c.isDigit then pyDigitsAux (10 * acc + (c.toNat - 48)) rest
    else if c = '_' then
      match rest with
      | [] => none
      | d :: rest2 =>
        if d.isDigit then pyDigitsAux (10 * acc + (d.toNat - 48)) rest2 else none
    else none

/-- Nonempty digit run for Python `int(...)`: must start with a digit. -/
def pyDigits : List Char → Option Nat
  | [] => none
  | c :: rest => if c.isDigit then pyDigitsAux (c.toNat - 48) rest else none

/-- Python `int(s)` on a string: strip whitespace, optional sign, digits
(underscores only between digits); `none` models `ValueError`. -/
def pyInt (l : List Char) : Option Int :=
  match pyStrip l with
  | '+' :: u => (pyDigits u).map (fun n => (n : Int))
  | '-' :: u => (pyDigits u).map (fun n => -(n : Int))
  | u => (pyDigits u).map (fun n => (n : Int))

/-- `parse_time_to_minutes` (main.py lines 91-97): take the text before
the first " - ", split it on ":", and return hours*60+minutes when that
yields exactly two int-parsable parts; `none` models the `float('inf')`
returned when a `ValueError`/`IndexError` is caught. -/
def parse_time_to_minutes (s : List Char) : Option Int :=
  match pySplitCh ':' (splitDashHead s) with
  | [a, b] =>
    match pyInt a, pyInt b with
    | some h, some m => some (h * 60 + m)
    | _, _ => none
  | _ => none

/-- Order on sort keys: `none` plays the role of `float('inf')`, larger
than every finite key (Python compares int with inf this way). -/
def keyLE : Option Int → Option Int → Bool
  | _, none => true
  | none, some _ => false
  | some a, some b => decide (a ≤ b)

/-!
## Text Normalizer (main.py lines 120-154)

The regex `(\d{1,2}:\d{2})\s*-\s*(\d{1,2}:\d{2})\s*(.+)` of line 132 is
embedded as a direct matcher.  Its backtracking is limited: the one- and
two-digit hour alternatives are mutually exclusive (a digit is never a
colon), `\s*` around the dash cannot usefully give characters back, and
only the final `\s*(.+)` can backtrack, when everything after the second
time is whitespace.  `\d` is embedded as an ASCII digit and `.` as any
character except the newline, as in the Python `re` defaults relevant to
the scraped text.
-/

/-- Match `\d{1,2}:\d{2}` at the head of the input (two-digit hour tried
first, as the greedy regex does); returns the matched chars and the rest. -/
def matchHM : List Char → Option (List Char × List Char)
  | c1 :: c2 :: c3 :: c4 :: c5 :: rest =>
    if c1.isDigit && c2.isDigit && c3 = ':' && c4.isDigit && c5.isDigit then
      some ([c1, c2, c3, c4, c5], rest)
    else if c1.isDigit && c2 = ':' && c3.isDigit && c4.isDigit then
      some ([c1, c2, c3, c4], c5 :: rest)
    else none
  | [c1, c2, c3, c4] =>
    if c1.isDigit && c2 = ':' && c3.isDigit && c4.isDigit then
      some ([c1, c2, c3, c4], [])
    else none
  | _ => none

/-- Match the trailing `\s*(.+)` of the regex: greedily drop whitespace
and capture the maximal newline-free run; when the rest is all
whitespace, backtrack to the last character that `.` can match. -/
def matchTail (r : List Char) : Option (List Char) :=
  match r.dropWhile isPySpace with
  | [] =>
    match r.reverse.dropWhile (fun c => c = '\n') with
    | [] => none
    | c :: _ => some [c]
  | c :: t => some ((c :: t).takeWhile (fun x => x ≠ '\n'))

/-- `re.match` of the full pattern: on success, the two time groups and
the subject group. -/
def timeMatch (s : List Char) : Option (List Char × List Char × List Char) :=
  match matchHM s with
  | none => none
  | some (g1, r1) =>
    match r1.dropWhile isPySpace with
    | '-' :: r2 =>
      match matchHM (r2.dropWhile isPySpace) with
      | none => none
      | some (g2, r3) =>
        match matchTail r3 with
        | none => none
        | some g3 => some (g1, g2, g3)
    | _ => none

/-- Result of normalizing one block's title text: a week-period marker
(period set to the text itself), the session marker, or a lesson skeleton
`(time, type, subject)`. -/
inductive NormResult where
  | weekMarker (t : List Char)
  | sessionMarker
  | lesson (time ty subj : List Char)
deriving DecidableEq, Repr

/-- Lines 145-154: derive `lesson_type` and `subject_name` from
`subject_raw` by splitting on `|` (non-empty stripped parts; first two
become type and subject), defaulting type to "Не указан". -/
def mkTypeSubject (time subject_raw : List Char) : NormResult :=
  if subject_raw.contains '|' then
    match (pySplitCh '|' subject_raw).filterMap
        (fun p => if (pyStrip p).isEmpty then none else some (pyStrip p)) with
    | t :: s :: _ => .lesson time t (pyStrip s)
    | [t] => .lesson time ("Не указан".data) (pyStrip t)
    | [] => .lesson time ("Не указан".data) (pyStrip subject_raw)
  else .lesson time ("Не указан".data) (pyStrip subject_raw)

/-- Lines 125-154: normalize one (already stripped) block title: the two
marker checks, then the time regex, then the compact-range fallback
split on the first space, then the no-time fallback. -/
def normalizeTitle (t : List Char) : NormResult :=
  if containsSub ("неделя".data) (pyLower t) && !(t.contains ':' || t.contains '-') then
    .weekMarker t
  else if containsSub ("сессия".data) (pyLower t) && !(t.contains ':' || t.contains '-') then
    .sessionMarker
  else
    match timeMatch t with
    | some (g1, g2, g3) =>
      mkTypeSubject (g1 ++ (" - ".data) ++ g2) (pyStrip g3)
    | none =>
      match pySplitSpace1 t with
      | (p1, some p2) =>
        if p1.contains '-' then
          mkTypeSubject (p1.filter (fun c => c ≠ ' ')) (pyStrip p2)
        else mkTypeSubject ("Нет времени".data) t
      | (_, none) => mkTypeSubject ("Нет времени".data) t

/-!
## Lesson records, ordering, and per-day assembly (main.py lines 99-209)

A `Block` is the observable behavior of one lesson DOM node: the title
text (line 122-124), the room text (lines 155-157), and the outcome of
the hover/dialog interaction (lines 158-165).  `DetailOutcome.crash`
models a non-timeout interaction error (e.g. the element detaching
during `hover()`): the code catches only `PlaywrightTimeoutError`
per-lesson, so such an error escapes to the day-level handler of lines
204-206, which logs and returns an empty list.
-/

structure LessonRecord where
  period : List Char
  time : List Char
  type : List Char
  subject : List Char
  room : List Char
  teacher : List Char
  groups : List (List Char)
deriving DecidableEq, Repr

/-- `schedule.sort(key=lambda x: parse_time_to_minutes(x["time"]))`
compares records by parsed start minute, `float('inf')` for unparsable. -/
def lessonLE (a b : LessonRecord) : Prop :=
  keyLE (parse_time_to_minutes a.time) (parse_time_to_minutes b.time) = true

instance : DecidableRel lessonLE := fun _ _ =>
  inferInstanceAs (Decidable (_ = true))

/-- Line 200: Python `list.sort` is stable and orders by the key; a
stable insertion sort produces the identical list. -/
def sortSchedule (l : List LessonRecord) : List LessonRecord :=
  List.insertionSort lessonLE l

/-- Outcome of the hover + `wait_for_selector` detail interaction for one
block: dialog found (with its inner text), `PlaywrightTimeoutError`
(caught at line 164), or any other raised error (uncaught per-lesson). -/
inductive DetailOutcome where
  | dialog (text : List Char)
  | timeout
  | crash
deriving DecidableEq, Repr

structure Block where
  title : Option (List Char)
  room : Option (List Char)
  detail : DetailOutcome
deriving DecidableEq, Repr

/-- Lines 122-124: the stripped title text, or the sentinel when the
title element is absent. -/
def blockTitle (b : Block) : List Char :=
  match b.title with
  | some t => pyStrip t
  | none => ("Нет данных".data)

/-- Lines 155-157: the stripped room text, or the sentinel when the
details block or its strong element is absent. -/
def blockRoom (b : Block) : List Char :=
  match b.room with
  | some t => pyStrip t
  | none => ("Нет данных".data)

/-- Python `str.replace(needle, "")` — remove every occurrence, scanning
left to right; `fuel` bounds the recursion (each step consumes at least
one character, so `l.length` is enough). -/
def pyRemoveAux (needle : List Char) : Nat → List Char → List Char
  | 0, l => l
  | _ + 1, [] => []
  | fuel + 1, c :: rest =>
    if needle.isPrefixOf (c :: rest) then
      pyRemoveAux needle fuel ((c :: rest).drop needle.length)
    else c :: pyRemoveAux needle fuel rest

def pyRemove (needle l : List Char) : List Char :=
  pyRemoveAux needle l.length l

/-- Lines 171-174: first dialog line containing "Преподаватель:", with the
label removed and the result stripped; sentinel otherwise. -/
def extractTeacher : List (List Char) → List Char
  | [] => ("Нет данных".data)
  | line :: rest =>
    if containsSub ("Преподаватель:".data) line then
      pyStrip (pyRemove ("Преподаватель:".data) line)
    else extractTeacher rest

/-- Lines 176-186: scan dialog lines; a line containing "Группы:" turns
the section flag on; inside the section, non-blank lines containing
"БАСО-" are collected stripped, and a blank line ends the scan. -/
def scanGroups (flag : Bool) : List (List Char) → List (List Char)
  | [] => []
  | line :: rest =>
    if containsSub ("Группы:".data) line then scanGroups true rest
    else if flag && !(pyStrip line).isEmpty then
      if containsSub ("БАСО-".data) line then pyStrip line :: scanGroups flag rest
      else scanGroups flag rest
    else if flag && (pyStrip line).isEmpty then []
    else scanGroups flag rest

/-- Lines 176-188: collected group lines, or the sentinel list. -/
def extractGroups (lines : List (List Char)) : List (List Char) :=
  match scanGroups false lines with
  | [] => [("Нет данных о группах".data)]
  | g => g

/-- Lines 120-198: the per-block loop.  `period` is the running period
state; the result is `none` when a block's interaction crashes (the
exception then escapes to the day-level handler).  Marker blocks update
the period and emit nothing; lesson blocks emit one record, with
teacher/groups sentinels kept on a detail timeout (`extra_info = []`). -/
def processBlocks : List Char → List Block → Option (List LessonRecord)
  | _, [] => some []
  | period, b :: bs =>
    match normalizeTitle (blockTitle b) with
    | .weekMarker t => processBlocks t bs
    | .sessionMarker => processBlocks ("Сессия".data) bs
    | .lesson ti ty su =>
      match b.detail with
      | .crash => none
      | .timeout =>
        (processBlocks period bs).map
          (fun rest =>
            { period := period, time := ti, type := ty, subject := su,
              room := blockRoom b, teacher := ("Нет данных".data),
              groups := [("Нет данных о группах".data)] } :: rest)
      | .dialog txt =>
        let lines := pySplitCh '\n' (pyStrip txt)
        let teacher := if lines.isEmpty then ("Нет данных".data) else extractTeacher lines
        let groups :=
          if lines.isEmpty then [("Нет данных о группах".data)] else extractGroups lines
        (processBlocks period bs).map
          (fun rest =>
            { period := period, time := ti, type := ty, subject := su,
              room := blockRoom b, teacher := teacher, groups := groups } :: rest)

/-- What the page interaction yields for a (group, date): a navigation
error (caught by the day-level handler), or the list of matched blocks. -/
inductive PageOutcome where
  | navError
  | blocks (bs : List Block)

/-- Lines 109-206 without the cache: the freshly assembled schedule and
whether `save_to_cache` was reached.  Zero blocks return `[]` at line
116-117 *before* the save; a crash or navigation error lands in the
`except` of lines 204-206, also before the save. -/
def assembleFresh : PageOutcome → List LessonRecord × Bool
  | .navError => ([], false)
  | .blocks [] => ([], false)
  | .blocks (b :: bs) =>
    match processBlocks ("Не указан".data) (b :: bs) with
    | none => ([], false)
    | some recs => (sortSchedule recs, true)

/-!
## Cache Gateway (main.py lines 58-88, config.py)

The file store is a map from file name to `(mtime, content)`.  Reading a
file and feeding it to `json.load` (lines 72-73) has three outcomes,
determined by the bytes on disk:
* valid UTF-8 and valid JSON — the schedule value (JSON serialization of
  a schedule, strings and lists of strings, round-trips identically);
* a read error or a JSON syntax error — `IOError` / `json.JSONDecodeError`,
  both caught by the `except` at line 74, which returns `None`;
* bytes that are not valid UTF-8 (for example a file truncated inside a
  multibyte Cyrillic character, reachable when a mid-write `IOError` is
  swallowed at lines 87-88 after `ensure_ascii=False` output) — reading
  raises `UnicodeDecodeError`, which derives from `ValueError`, not from
  `json.JSONDecodeError` or `IOError`, so the line-74 `except` does NOT
  catch it and it escapes `load_from_cache`.

The write of lines 84-88 is modeled as succeeding with valid content
(its `IOError` path only logs).
-/

/-- What the bytes of one cache file yield when read and JSON-decoded. -/
inductive FileContent where
  | good (s : List LessonRecord)
  | caughtError
  | invalidUtf8
deriving Repr

def CacheState : Type := List Char → Option (Int × FileContent)

def CACHE_TTL : Int := 86400

/-- The character class `[^A-Za-z0-9-А-Яа-яёЁ]` of lines 68/82: allowed
characters are kept, every other character becomes an underscore. -/
def allowedChar (c : Char) : Bool :=
  ('A' ≤ c && c ≤ 'Z') || ('a' ≤ c && c ≤ 'z') || ('0' ≤ c && c ≤ '9') ||
    c = '-' || ('А' ≤ c && c ≤ 'Я') || ('а' ≤ c && c ≤ 'я') || c = 'ё' || c = 'Ё'

def sanitizeGroup (g : List Char) : List Char :=
  g.map (fun c => if allowedChar c then c else '_')

/-- `os.path.join(CACHE_DIR, f"{safe_group}_{date}.json")` with
`CACHE_DIR = "schedule_cache"`. -/
def cacheFilename (g d : List Char) : List Char :=
  ("schedule_cache/".data) ++ sanitizeGroup g ++ '_' :: (d ++ (".json".data))

/-- `is_cache_valid` (lines 61-64): the file exists and its age is
strictly below the TTL. -/
def is_cache_valid (st : CacheState) (now : Int) (fn : List Char) : Bool :=
  match st fn with
  | none => false
  | some (mtime, _) => decide (now - mtime < CACHE_TTL)

/-- Outcome of `load_from_cache`: the Python return value (`.ret`), or an
escaping `UnicodeDecodeError` (`.unicodeError`). -/
inductive LoadResult where
  | ret (r : Option (List LessonRecord))
  | unicodeError
deriving DecidableEq, Repr

/-- `load_from_cache` (lines 67-76): the stored schedule when the file is
valid and deserializes; `None` on a miss, an expired file, or a caught
`json.JSONDecodeError`/`IOError`; a file whose bytes are not valid UTF-8
raises `UnicodeDecodeError` out of the function (uncaught at line 74). -/
def load_from_cache (st : CacheState) (now : Int) (g d : List Char) :
    LoadResult :=
  let fn := cacheFilename g d
  if is_cache_valid st now fn then
    match st fn with
    | some (_, .good s) => .ret (some s)
    | some (_, .caughtError) => .ret none
    | some (_, .invalidUtf8) => .unicodeError
    | none => .ret none
  else .ret none

/-- `save_to_cache` (lines 79-88): overwrite the file with the schedule,
stamped with the current time. -/
def save_to_cache (st : CacheState) (now : Int) (g d : List Char)
    (s : List LessonRecord) : CacheState :=
  fun fn => if fn = cacheFilename g d then some (now, .good s) else st fn

/-- Outcome of `get_day_schedule`: the schedule with the cache state
afterwards, or the `UnicodeDecodeError` escaping — the `load_from_cache`
call at line 100 sits before the `try` of line 108, so the exception
propagates to the HTTP layer. -/
inductive DayResult where
  | ret (schedule : List LessonRecord) (st : CacheState)
  | unicodeError

/-- `get_day_schedule` (lines 99-209): cache hit short-circuits;
otherwise assemble fresh and store the result only when the save line
was reached. -/
def get_day_schedule (st : CacheState) (now : Int) (g d : List Char)
    (po : PageOutcome) : DayResult :=
  match load_from_cache st now g d with
  | .unicodeError => .unicodeError
  | .ret (some s) => .ret s st
  | .ret none =>
    let p := assembleFresh po
    if p.2 then .ret p.1 (save_to_cache st now g d p.1) else .ret p.1 st

/-!
## Week Aggregator (main.py lines 253-279)

`datetime.date` arithmetic is proleptic Gregorian; a date is embedded as
its Python ordinal (`date.toordinal()`, day 1 = 0001-01-01, a Monday).
Conversion between ordinals and (year, month, day) uses the standard
civil-calendar algorithm; all divisions below act on non-negative
operands, where Lean's `Int` division agrees with floor division.
`asyncio.gather` is an order-preserving join, so fetching the seven
days is a `map` over the date list.
-/

/-- Civil (year, month, day) of a day count relative to 1970-01-01. -/
def civilFromDays (z0 : Int) : Int × Int × Int :=
  let z := z0 + 719468
  let era := Int.fdiv z 146097
  let doe := z - era * 146097
  let yoe := (doe - doe / 1460 + doe / 36524 - doe / 146096) / 365
  let y := yoe + era * 400
  let doy := doe - (365 * yoe + yoe / 4 - yoe / 100)
  let mp := (5 * doy + 2) / 153
  let d := doy - (153 * mp + 2) / 5 + 1
  let m := mp + (if mp < 10 then 3 else -9)
  (y + (if m ≤ 2 then 1 else 0), m, d)

/-- Day count relative to 1970-01-01 of a civil (year, month, day). -/
def daysFromCivil (y0 m d : Int) : Int :=
  let y := y0 - (if m ≤ 2 then 1 else 0)
  let era := Int.fdiv y 400
  let yoe := y - era * 400
  let doy := (153 * (m + (if 2 < m then -3 else 9)) + 2) / 5 + d - 1
  let doe := yoe * 365 + yoe / 4 - yoe / 100 + doy
  era * 146097 + doe - 719468

/-- `date(y, m, d).toordinal()` (1970-01-01 has ordinal 719163). -/
def pyOrd (y m d : Int) : Int := daysFromCivil y m d + 719163

/-- `date.weekday()` from the ordinal: Monday is 0 (ordinal 1 was a
Monday). -/
def pyWeekday (o : Int) : Int := (o + 6) % 7

def digitChar (n : Nat) : Char := Char.ofNat (48 + n % 10)

def pad2 (n : Nat) : List Char := [digitChar (n / 10), digitChar n]

def pad4 (n : Nat) : List Char := [digitChar (n / 1000), digitChar (n / 100), digitChar (n / 10), digitChar n]

/-- `date.strftime("%Y-%m-%d")` of an ordinal, zero-padded. -/
def fmtOrd (o : Int) : List Char :=
  match civilFromDays (o - 719163) with
  | (y, m, d) => pad4 y.toNat ++ '-' :: (pad2 m.toNat ++ '-' :: pad2 d.toNat)

structure WeeklyResult where
  week_start : List Char
  schedules : List (List Char × List LessonRecord)
deriving DecidableEq, Repr

/-- `get_weekly_schedule` (lines 253-279) for an input date given as its
ordinal: Monday is the date minus its weekday; the seven dates Monday
onward are formatted and fetched in order (`fetch` abstracts the per-day
`get_day_schedule` closure over the group), and zipped with their dates. -/
def get_weekly_schedule (fetch : List Char → List LessonRecord) (o : Int) :
    WeeklyResult :=
  let monday := o - pyWeekday o
  let week_dates := (List.range 7).map (fun i => fmtOrd (monday + i))
  { week_start := fmtOrd monday
    schedules := week_dates.map (fun d => (d, fetch d)) }

/-!
## Auxiliary definitions used by the theorems

`trimEnd` is a recursion-friendly form of removing trailing whitespace
(proved equal to the reverse/dropWhile/reverse inside `pyStrip`); `isHM`
captures the exact `\d{1,2}:\d{2}` shape; the remaining definitions are
concrete example records, blocks and cache states for the claims.
-/

def trimEnd : List Char → List Char
  | [] => []
  | c :: cs => if (trimEnd cs).isEmpty && isPySpace c then [] else c :: trimEnd cs

/-- Shape `\d{1,2}:\d{2}` exactly: a complete one- or two-digit-hour time. -/
def isHM : List Char → Bool
  | [a, b, c, d] => a.isDigit && (b = ':') && c.isDigit && d.isDigit
  | [a, b, c, d, e] => a.isDigit && b.isDigit && (c = ':') && d.isDigit && e.isDigit
  | _ => false

def emptyCache : CacheState := fun _ => none

/-- A cache state holding one fresh file whose bytes are not valid UTF-8
(e.g. truncated inside a multibyte character by an interrupted write). -/
def exBadUtf8Cache : CacheState := fun fn =>
  if fn = cacheFilename ("БАСО-03-24".data) ("2024-06-10".data) then
    some (0, .invalidUtf8)
  else none

/-- Example records for the ordering claim: only the `time` field enters
the sort key. -/
def exLessonA : LessonRecord :=
  { period := ("Не указан".data), time := ("10:00 - 11:30".data),
    type := ("Лекция".data), subject := ("А".data), room := ("А-1".data),
    teacher := ("Нет данных".data), groups := [("Нет данных о группах".data)] }

def exLessonB : LessonRecord :=
  { period := ("Не указан".data), time := ("Нет времени".data),
    type := ("Не указан".data), subject := ("Б".data), room := ("Нет данных".data),
    teacher := ("Нет данных".data), groups := [("Нет данных о группах".data)] }

def exLessonC : LessonRecord :=
  { period := ("Не указан".data), time := ("09:00 - 10:00".data),
    type := ("Практика".data), subject := ("В".data), room := ("А-2".data),
    teacher := ("Нет данных".data), groups := [("Нет данных о группах".data)] }

def exMarkerBlock : Block :=
  { title := some ("2 неделя".data), room := none, detail := .timeout }

def exLessonBlock : Block :=
  { title := some ("10:00 - 11:30 Лекция | Алгоритмы".data),
    room := some ("А-1".data), detail := .timeout }

def exCrashBlock : Block :=
  { title := some ("10:00 - 11:30 Лекция | Алгоритмы".data),
    room := none, detail := .crash }

def exOkBlock : Block :=
  { title := some ("12:00 - 13:30 Практика | Физика".data),
    room := none, detail := .timeout }

/-!
## Order and stability of the schedule sort
-/

lemma keyLE_refl (x : Option Int) : keyLE x x = true := by
  cases x <;> simp [keyLE]

lemma keyLE_trans {x y z : Option Int} (h1 : keyLE x y = true)
    (h2 : keyLE y z = true) : keyLE x z = true := by
  cases x <;> cases y <;> cases z <;> simp_all [keyLE]
  omega

lemma keyLE_total (x y : Option Int) : keyLE x y = true ∨ keyLE y x = true := by
  cases x <;> cases y <;> simp [keyLE]
  omega

instance : IsTotal LessonRecord lessonLE :=
  ⟨fun _ _ => keyLE_total _ _⟩

instance : IsTrans LessonRecord lessonLE :=
  ⟨fun _ _ _ => keyLE_trans⟩

/-- Inserting a record into a list keeps the relative order of records of
each key class: the record goes in front of the equal-keyed ones. -/
lemma filter_orderedInsert (k : Option Int) (a : LessonRecord)
    (l : List LessonRecord) :
    (List.orderedInsert lessonLE a l).filter
        (fun r => decide (parse_time_to_minutes r.time = k)) =
      if parse_time_to_minutes a.time = k then
        a :: l.filter (fun r => decide (parse_time_to_minutes r.time = k))
      else l.filter (fun r => decide (parse_time_to_minutes r.time = k)) := by
  induction l with
  | nil =>
    simp only [List.orderedInsert, List.filter]
    by_cases h : parse_time_to_minutes a.time = k <;> simp [h]
  | cons b l ih =>
    rw [List.orderedInsert]
    by_cases hab : lessonLE a b
    · rw [if_pos hab]
      by_cases ha : parse_time_to_minutes a.time = k <;>
        simp [List.filter, ha]
    · rw [if_neg hab]
      by_cases hb : parse_time_to_minutes b.time = k
      · by_cases ha : parse_time_to_minutes a.time = k
        · exfalso
          apply hab
          show keyLE (parse_time_to_minutes a.time) (parse_time_to_minutes b.time) = true
          rw [ha, hb]
          exact keyLE_refl k
        · simp [List.filter, hb, ha, ih]
      · by_cases ha : parse_time_to_minutes a.time = k <;>
          simp [List.filter, hb, ha, ih]

/-- Stability of the schedule sort: for every key value, the sorted list
restricted to records with that key is the input list so restricted. -/
lemma filter_sortSchedule (k : Option Int) (l : List LessonRecord) :
    (sortSchedule l).filter (fun r => decide (parse_time_to_minutes r.time = k)) =
      l.filter (fun r => decide (parse_time_to_minutes r.time = k)) := by
  induction l with
  | nil => rfl
  | cons a l ih =>
    have ih2 : (List.insertionSort lessonLE l).filter
          (fun r => decide (parse_time_to_minutes r.time = k)) =
        l.filter (fun r => decide (parse_time_to_minutes r.time = k)) := ih
    show (List.orderedInsert lessonLE a (List.insertionSort lessonLE l)).filter _ = _
    rw [filter_orderedInsert k a (List.insertionSort lessonLE l)]
    by_cases ha : parse_time_to_minutes a.time = k <;>
      simp [List.filter, ha, ih2]

/-- Every freshly assembled day schedule is sorted by the parsed time key. -/
lemma assembleFresh_sorted (po : PageOutcome) :
    List.Sorted lessonLE (assembleFresh po).1 := by
  cases po with
  | navError => simp [assembleFresh]
  | blocks bs =>
    cases bs with
    | nil => simp [assembleFresh]
    | cons b bs =>
      rw [assembleFresh]
      cases processBlocks (("Не указан".data)) (b :: bs) with
      | none => simp
      | some recs => exact List.sorted_insertionSort lessonLE recs

/-- C1: every day schedule produced by the assembler is ordered by the
parsed start-of-range minute of each record's time field ascending, with
unparsable times carrying the infinite key and hence sorting last; the
sort is stable (each key class keeps its input order); and the lessons
with times "10:00 - 11:30", "Нет времени", "09:00 - 10:00" come out in
the order "09:00 - 10:00", "10:00 - 11:30", "Нет времени". -/
theorem claim_C1_day_ordering :
    (∀ po : PageOutcome, List.Sorted lessonLE (assembleFresh po).1)
    ∧ (∀ (l : List LessonRecord) (k : Option Int),
        (sortSchedule l).filter
            (fun r => decide (parse_time_to_minutes r.time = k)) =
          l.filter (fun r => decide (parse_time_to_minutes r.time = k)))
    ∧ sortSchedule [exLessonA, exLessonB, exLessonC] =
        [exLessonC, exLessonA, exLessonB] :=
  ⟨assembleFresh_sorted, fun l k => filter_sortSchedule k l, by decide⟩

/-!
## Characterization of the single-character split
-/

lemma pySplitCh_ne_nil (c : Char) (l : List Char) : pySplitCh c l ≠ [] := by
  induction l with
  | nil => simp [pySplitCh]
  | cons x xs ih =>
    rw [pySplitCh]
    by_cases h : x = c
    · simp [h]
    · rw [if_neg h]
      cases hx : pySplitCh c xs with
      | nil => simp
      | cons a t => simp

lemma pySplitCh_no_sep (c : Char) {l : List Char} (h : c ∉ l) :
    pySplitCh c l = [l] := by
  induction l with
  | nil => rfl
  | cons x xs ih =>
    simp only [List.mem_cons, not_or] at h
    rw [pySplitCh, if_neg (fun he => h.1 he.symm), ih h.2]

lemma pySplitCh_pair (c : Char) {a b : List Char} (ha : c ∉ a) (hb : c ∉ b) :
    pySplitCh c (a ++ c :: b) = [a, b] := by
  induction a with
  | nil => simp [pySplitCh, pySplitCh_no_sep c hb]
  | cons x xs ih =>
    simp only [List.mem_cons, not_or] at ha
    rw [List.cons_append, pySplitCh, if_neg (fun he => ha.1 he.symm), ih ha.2]

lemma pySplitCh_eq_single {c : Char} {l x : List Char}
    (h : pySplitCh c l = [x]) : l = x ∧ c ∉ l := by
  induction l generalizing x with
  | nil =>
    simp only [pySplitCh] at h
    cases h
    exact ⟨rfl, by simp⟩
  | cons y ys ih =>
    rw [pySplitCh] at h
    by_cases hy : y = c
    · rw [if_pos hy] at h
      cases hcons : pySplitCh c ys with
      | nil => exact absurd hcons (pySplitCh_ne_nil c ys)
      | cons a t =>
        rw [hcons] at h
        simp at h
    · rw [if_neg hy] at h
      cases hx : pySplitCh c ys with
      | nil => exact absurd hx (pySplitCh_ne_nil c ys)
      | cons hh tt =>
        rw [hx] at h
        injection h with h1 h2
        subst h2
        obtain ⟨rfl, hnc⟩ := ih hx
        refine ⟨h1, ?_⟩
        simp only [List.mem_cons, not_or]
        exact ⟨fun he => hy he.symm, hnc⟩

lemma pySplitCh_eq_pair {c : Char} {l a b : List Char}
    (h : pySplitCh c l = [a, b]) :
    l = a ++ c :: b ∧ c ∉ a ∧ c ∉ b := by
  induction l generalizing a with
  | nil => simp [pySplitCh] at h
  | cons y ys ih =>
    rw [pySplitCh] at h
    by_cases hy : y = c
    · rw [if_pos hy] at h
      injection h with h1 h2
      obtain ⟨rfl, hnb⟩ := pySplitCh_eq_single h2
      subst hy
      exact ⟨by simp [← h1], by simp [← h1], hnb⟩
    · rw [if_neg hy] at h
      cases hx : pySplitCh c ys with
      | nil => exact absurd hx (pySplitCh_ne_nil c ys)
      | cons hh tt =>
        rw [hx] at h
        injection h with h1 h2
        subst h2
        obtain ⟨hys, hnh, hnb⟩ := ih hx
        refine ⟨by rw [← h1, hys, List.cons_append], ?_, hnb⟩
        rw [← h1]
        simp only [List.mem_cons, not_or]
        exact ⟨fun he => hy he.symm, hnh⟩

/-- C10: `parse_time_to_minutes` returns hours*60+minutes exactly when the
text before the first " - " has the form `a:b` (a single colon) with both
sides parsable as Python ints; anything else — among them the compact
range "9:00-10:30" of the normalizer's fallback branch and the sentinel
"Нет времени" — gets the infinite key `none`, the same end-of-list sort
key as the no-time sentinel. -/
theorem claim_C10_parse_time :
    (∀ (s a b : List Char) (h m : Int),
        splitDashHead s = a ++ ':' :: b → ':' ∉ a → ':' ∉ b →
        pyInt a = some h → pyInt b = some m →
        parse_time_to_minutes s = some (h * 60 + m))
    ∧ (∀ (s : List Char) (v : Int), parse_time_to_minutes s = some v →
        ∃ a b h m, splitDashHead s = a ++ ':' :: b ∧ ':' ∉ a ∧ ':' ∉ b ∧
          pyInt a = some h ∧ pyInt b = some m ∧ v = h * 60 + m)
    ∧ parse_time_to_minutes ("9:00-10:30".data) = none
    ∧ parse_time_to_minutes ("Нет времени".data) = none := by
  refine ⟨?_, ?_, by decide, by decide⟩
  · intro s a b h m hs ha hb hia hib
    simp [parse_time_to_minutes, hs, pySplitCh_pair ':' ha hb, hia, hib]
  · intro s v hv
    rw [parse_time_to_minutes] at hv
    split at hv
    case h_1 a b heq =>
      split at hv
      case h_1 h m hia hib =>
        obtain ⟨h1, h2, h3⟩ := pySplitCh_eq_pair heq
        exact ⟨a, b, h, m, h1, h2, h3, hia, hib, (Option.some.inj hv).symm⟩
      case h_2 => exact absurd hv (by simp)
    case h_2 => exact absurd hv (by simp)

/-- Witness for C10: a concrete application of the positive direction. -/
theorem claim_C10_witness :
    parse_time_to_minutes ("10:00 - 11:30".data) = some 600 := by
  have h := claim_C10_parse_time.1 ("10:00 - 11:30".data) ("10".data)
      ("00".data) 10 0 (by decide) (by decide) (by decide) (by decide) (by decide)
  norm_num at h
  exact h

/-!
## Cache Gateway claims
-/

/-- C6 (code bug): the positive part of the claim holds — `load` returns
the stored schedule exactly when an entry exists under the derived file
name, its age is strictly below the 24-hour TTL and it deserializes, and
an entry that still exists past the TTL, or whose read/decode raises the
caught `json.JSONDecodeError`/`IOError`, loads as `None`.  But "never
raises" is false on the code: a fresh cache file whose bytes are not
valid UTF-8 makes `json.load` raise `UnicodeDecodeError`, which the
`except (json.JSONDecodeError, IOError)` of line 74 does not catch, so
`load_from_cache` raises instead of reporting absence. -/
theorem claim_C6_cache_load :
    ∀ (st : CacheState) (now : Int) (g d : List Char),
      (∀ s, load_from_cache st now g d = .ret (some s) ↔
        ∃ m, st (cacheFilename g d) = some (m, .good s) ∧ now - m < CACHE_TTL)
      ∧ (∀ m c, st (cacheFilename g d) = some (m, c) →
          ¬(now - m < CACHE_TTL) → load_from_cache st now g d = .ret none)
      ∧ (∀ m, st (cacheFilename g d) = some (m, .caughtError) →
          load_from_cache st now g d = .ret none)
      ∧ (∀ m, st (cacheFilename g d) = some (m, .invalidUtf8) →
          now - m < CACHE_TTL → load_from_cache st now g d = .unicodeError) := by
  intro st now g d
  refine ⟨?_, ?_, ?_, ?_⟩
  · intro s
    unfold load_from_cache is_cache_valid
    cases hst : st (cacheFilename g d) with
    | none => simp [hst]
    | some e =>
      obtain ⟨m, content⟩ := e
      cases content with
      | caughtError =>
        by_cases h : now - m < CACHE_TTL <;> simp [hst, h]
      | invalidUtf8 =>
        by_cases h : now - m < CACHE_TTL <;> simp [hst, h]
      | good val =>
        by_cases h : now - m < CACHE_TTL
        · simp [hst, h]
          constructor
          · intro hv
            exact ⟨m, ⟨rfl, hv⟩, h⟩
          · intro hex
            obtain ⟨m1, ⟨hm, hv⟩, hlt⟩ := hex
            exact hv
        · simp [hst, h]
          intro hv
          omega
  · intro m c hst h
    unfold load_from_cache is_cache_valid
    simp [hst, h]
  · intro m hst
    unfold load_from_cache is_cache_valid
    by_cases h : now - m < CACHE_TTL <;> simp [hst, h]
  · intro m hst h
    unfold load_from_cache is_cache_valid
    simp [hst, h]

/-- Witness for C6: a fresh entry whose file is not valid UTF-8 makes the
load raise (escaping `UnicodeDecodeError`) instead of returning `None`. -/
theorem claim_C6_witness :
    load_from_cache exBadUtf8Cache 0 ("БАСО-03-24".data) ("2024-06-10".data) =
      .unicodeError :=
  (claim_C6_cache_load exBadUtf8Cache 0 ("БАСО-03-24".data)
      ("2024-06-10".data)).2.2.2 0 rfl (by norm_num [CACHE_TTL])

/-- C7: storing a schedule and immediately loading the same (group, date)
returns the stored value (the write is modeled as succeeding; JSON
round-trips the record list identically). -/
theorem claim_C7_cache_roundtrip :
    ∀ (st : CacheState) (now : Int) (g d : List Char) (s : List LessonRecord),
      load_from_cache (save_to_cache st now g d s) now g d = .ret (some s) := by
  intro st now g d s
  unfold load_from_cache is_cache_valid save_to_cache
  simp [CACHE_TTL]

/-- C8 counterexample: "A!" and "A?" differ only in a character outside
the allowed class, yet they map to the same cache key — the claimed
distinctness is false. -/
theorem claim_C8_counterexample :
    cacheFilename ("A!".data) ("2024-06-10".data) =
        cacheFilename ("A?".data) ("2024-06-10".data)
      ∧ ("A!".data) ≠ ("A?".data)
      ∧ allowedChar '!' = false ∧ allowedChar '?' = false := by decide

lemma sanitize_char_idem (c : Char) :
    (if allowedChar (if allowedChar c then c else '_') then
        (if allowedChar c then c else '_') else '_') =
      (if allowedChar c then c else '_') := by
  by_cases h : allowedChar c <;> simp [h]

/-- C8 (amended): sanitization is deterministic (a function of the group
alone) and idempotent, and two groups differing only in characters
outside the allowed class map to the SAME cache key (each such character
collapses to an underscore). -/
theorem claim_C8_sanitize :
    (∀ g, sanitizeGroup (sanitizeGroup g) = sanitizeGroup g)
    ∧ (∀ g1 g2 d, List.Forall₂
          (fun c1 c2 => c1 = c2 ∨ (allowedChar c1 = false ∧ allowedChar c2 = false))
          g1 g2 →
        cacheFilename g1 d = cacheFilename g2 d) := by
  constructor
  · intro g
    induction g with
    | nil => rfl
    | cons c cs ih =>
      show sanitizeGroup (sanitizeGroup (c :: cs)) = sanitizeGroup (c :: cs)
      simp only [sanitizeGroup, List.map_cons] at ih ⊢
      rw [sanitize_char_idem c]
      exact congrArg _ ih
  · intro g1 g2 d h
    have hsan : sanitizeGroup g1 = sanitizeGroup g2 := by
      induction h with
      | nil => rfl
      | cons hc _ ih =>
        rcases hc with rfl | ⟨h1, h2⟩
        · simp only [sanitizeGroup, List.map_cons]
          exact congrArg _ ih
        · simp only [sanitizeGroup, List.map_cons]
          rw [if_neg (by simp [h1]), if_neg (by simp [h2])]
          exact congrArg _ ih
    simp [cacheFilename, hsan]

/-- Witness for C8: the collision applied at concrete groups. -/
theorem claim_C8_witness :
    cacheFilename ("A!".data) ("2024-06-11".data) =
      cacheFilename ("A?".data) ("2024-06-11".data) :=
  claim_C8_sanitize.2 ("A!".data) ("A?".data) ("2024-06-11".data)
    (List.Forall₂.cons (Or.inl rfl)
      (List.Forall₂.cons (Or.inr (by decide)) List.Forall₂.nil))

/-- C4 counterexample: with an empty cache and a page yielding zero
lesson nodes, the day returns an empty schedule but nothing is written to
the cache — the (group, date) entry is still absent afterwards, so the
day WOULD be re-scraped within the TTL window. -/
theorem claim_C4_counterexample :
    get_day_schedule emptyCache 0 ("БАСО-03-24".data) ("2024-06-10".data)
        (.blocks []) = .ret [] emptyCache
    ∧ emptyCache (cacheFilename ("БАСО-03-24".data) ("2024-06-10".data)) =
        none :=
  ⟨rfl, rfl⟩

/-- C4 (amended): a (group, date) whose page query yields zero matching
lesson nodes returns an empty schedule list (not an error), but the
empty result is NOT stored in the cache — the function returns before
the save line, leaving the cache state unchanged. -/
theorem claim_C4_empty_day :
    ∀ (st : CacheState) (now : Int) (g d : List Char),
      load_from_cache st now g d = .ret none →
      get_day_schedule st now g d (.blocks []) = .ret [] st := by
  intro st now g d h
  simp [get_day_schedule, h, assembleFresh]

/-- Witness for C4: the empty-page day at a concrete cache miss. -/
theorem claim_C4_witness :
    get_day_schedule emptyCache 0 ("А".data) ("2024-06-12".data) (.blocks []) =
      .ret [] emptyCache :=
  claim_C4_empty_day emptyCache 0 ("А".data) ("2024-06-12".data) rfl

/-!
## Period markers and detail-error behavior in the block loop
-/

/-- Records emitted by a marker-free block run all carry the entry period. -/
lemma processBlocks_period (p : List Char) (bs : List Block)
    (hbs : ∀ x ∈ bs, ∃ ti ty su, normalizeTitle (blockTitle x) = .lesson ti ty su) :
    ∀ recs, processBlocks p bs = some recs → ∀ r ∈ recs, r.period = p := by
  induction bs with
  | nil =>
    intro recs h r hr
    cases h
    simp at hr
  | cons b bs ih =>
    intro recs hp r hr
    obtain ⟨ti, ty, su, hn⟩ := hbs b (by simp)
    simp only [processBlocks, hn] at hp
    cases hdet : b.detail with
    | crash =>
      rw [hdet] at hp
      cases hp
    | timeout =>
      rw [hdet] at hp
      obtain ⟨rest, hrest, hcons⟩ := Option.map_eq_some'.mp hp
      subst hcons
      rcases List.mem_cons.mp hr with rfl | hmem
      · rfl
      · exact ih (fun x hx => hbs x (List.mem_cons_of_mem b hx)) rest hrest r hmem
    | dialog txt =>
      rw [hdet] at hp
      obtain ⟨rest, hrest, hcons⟩ := Option.map_eq_some'.mp hp
      subst hcons
      rcases List.mem_cons.mp hr with rfl | hmem
      · rfl
      · exact ih (fun x hx => hbs x (List.mem_cons_of_mem b hx)) rest hrest r hmem

/-- A week-marker title normalizes to the marker carrying the text itself. -/
lemma normalizeTitle_weekMarker {t : List Char}
    (hw : containsSub ("неделя".data) (pyLower t) = true)
    (hc : t.contains ':' = false) (hd : t.contains '-' = false) :
    normalizeTitle t = .weekMarker t := by
  have hc2 : ':' ∉ t := by simpa using hc
  have hd2 : '-' ∉ t := by simpa using hd
  simp [normalizeTitle, hw, hc2, hd2]

/-- C3: a block whose title contains "неделя" (case-insensitively) and
neither ":" nor "-" emits no record and replaces the running period with
that title; in a subsequent marker-free run every emitted record carries
the running period — in particular records before any marker carry
"Не указан". -/
theorem claim_C3_period_markers :
    (∀ (p : List Char) (b : Block) (bs : List Block),
        containsSub ("неделя".data) (pyLower (blockTitle b)) = true →
        (blockTitle b).contains ':' = false →
        (blockTitle b).contains '-' = false →
        processBlocks p (b :: bs) = processBlocks (blockTitle b) bs)
    ∧ (∀ (p : List Char) (bs : List Block),
        (∀ x ∈ bs, ∃ ti ty su, normalizeTitle (blockTitle x) = .lesson ti ty su) →
        ∀ recs, processBlocks p bs = some recs → ∀ r ∈ recs, r.period = p)
    ∧ (∀ (b : Block) (bs : List Block),
        (∀ x ∈ b :: bs, ∃ ti ty su, normalizeTitle (blockTitle x) = .lesson ti ty su) →
        ∀ r ∈ (assembleFresh (.blocks (b :: bs))).1, r.period = ("Не указан".data)) := by
  refine ⟨?_, ?_, ?_⟩
  · intro p b bs hw hc hd
    simp only [processBlocks, normalizeTitle_weekMarker hw hc hd]
  · intro p bs hbs
    exact processBlocks_period p bs hbs
  · intro b bs hbs r hr
    rw [assembleFresh] at hr
    cases hp : processBlocks (("Не указан".data)) (b :: bs) with
    | none =>
      rw [hp] at hr
      simp at hr
    | some recs =>
      rw [hp] at hr
      have hmem : r ∈ recs :=
        (List.perm_insertionSort lessonLE recs).mem_iff.mp hr
      exact processBlocks_period _ (b :: bs) hbs recs hp r hmem

/-- Witness for C3: the concrete marker block updates the running period
to its own text and emits nothing. -/
theorem claim_C3_witness :
    processBlocks ("Не указан".data) [exMarkerBlock, exLessonBlock] =
      processBlocks ("2 неделя".data) [exLessonBlock] := by
  have h := claim_C3_period_markers.1 ("Не указан".data) exMarkerBlock
      [exLessonBlock] (by decide) (by decide) (by decide)
  rw [show blockTitle exMarkerBlock = ("2 неделя".data) from by decide] at h
  exact h

/-- C5 counterexample: a non-timeout interaction error (`crash`) on the
first lesson node empties the whole day — the healthy second node, which
alone would yield a record, is not recorded, refuting "every remaining
lesson node is still processed and recorded". -/
theorem claim_C5_counterexample :
    assembleFresh (.blocks [exCrashBlock, exOkBlock]) = ([], false)
    ∧ processBlocks ("Не указан".data) [exOkBlock] = some
        [{ period := ("Не указан".data), time := ("12:00 - 13:30".data),
           type := ("Практика".data), subject := ("Физика".data),
           room := ("Нет данных".data), teacher := ("Нет данных".data),
           groups := [("Нет данных о группах".data)] }] := by
  constructor
  · rfl
  · rfl

/-- C5 (amended): only a detail-popover TIMEOUT is swallowed per lesson —
the affected record keeps the teacher sentinel "Нет данных" and the
groups sentinel ["Нет данных о группах"] while the remaining nodes are
still processed; any other interaction error (e.g. element detached
during hover) escapes the per-lesson handler and aborts the whole day,
which the day-level handler converts to an empty schedule (no exception
reaches the caller, but remaining nodes of that day are lost). -/
theorem claim_C5_detail_errors :
    (∀ (p : List Char) (b : Block) (bs : List Block) (ti ty su : List Char),
        b.detail = .timeout → normalizeTitle (blockTitle b) = .lesson ti ty su →
        processBlocks p (b :: bs) = (processBlocks p bs).map
          (fun rest =>
            { period := p, time := ti, type := ty, subject := su,
              room := blockRoom b, teacher := ("Нет данных".data),
              groups := [("Нет данных о группах".data)] } :: rest))
    ∧ (∀ (p : List Char) (b : Block) (bs : List Block) (ti ty su : List Char),
        b.detail = .crash → normalizeTitle (blockTitle b) = .lesson ti ty su →
        processBlocks p (b :: bs) = none)
    ∧ (∀ (b : Block) (bs : List Block),
        processBlocks ("Не указан".data) (b :: bs) = none →
        assembleFresh (.blocks (b :: bs)) = ([], false)) := by
  refine ⟨?_, ?_, ?_⟩
  · intro p b bs ti ty su hdet hn
    simp only [processBlocks, hn, hdet]
  · intro p b bs ti ty su hdet hn
    simp only [processBlocks, hn, hdet]
  · intro b bs h
    rw [assembleFresh, h]

/-- Witness for C5: the timeout case at a concrete block keeps the
sentinels and continues with the rest of the day. -/
theorem claim_C5_witness :
    processBlocks ("Не указан".data) [exOkBlock] =
      (processBlocks ("Не указан".data) ([] : List Block)).map
        (fun rest =>
          { period := ("Не указан".data), time := ("12:00 - 13:30".data),
            type := ("Практика".data), subject := ("Физика".data),
            room := blockRoom exOkBlock, teacher := ("Нет данных".data),
            groups := [("Нет данных о группах".data)] } :: rest) :=
  claim_C5_detail_errors.1 ("Не указан".data) exOkBlock []
    ("12:00 - 13:30".data) ("Практика".data) ("Физика".data) rfl (by decide)

/-!
## Week Aggregator claims
-/

lemma pyWeekday_monday (o : Int) : pyWeekday (o - pyWeekday o) = 0 := by
  unfold pyWeekday
  have h : o - (o + 6) % 7 + 6 = 7 * ((o + 6) / 7) := by
    rw [Int.emod_def]
    ring
  rw [h, Int.mul_emod_right]

lemma pyWeekday_monday_add (o : Int) (i : Nat) (hi : i < 7) :
    pyWeekday (o - pyWeekday o + i) = i := by
  unfold pyWeekday
  have h : o - (o + 6) % 7 + ↑i + 6 = ↑i + 7 * ((o + 6) / 7) := by
    rw [Int.emod_def]
    ring
  rw [h, Int.add_mul_emod_self_left]
  exact Int.emod_eq_of_lt (by positivity) (by exact_mod_cast hi)

/-- C9: for every input date (as its ordinal) the aggregator reports the
date minus its weekday — a Monday — as week_start, builds exactly 7
entries whose dates are the consecutive ordinals Monday through Sunday
(entry i has weekday i), each paired with the fetch of that date in the
input order; on 2024-06-12 (a Wednesday) the week_start is 2024-06-10. -/
theorem claim_C9_week_aggregator :
    (∀ (fetch : List Char → List LessonRecord) (o : Int),
        (get_weekly_schedule fetch o).week_start = fmtOrd (o - pyWeekday o)
        ∧ pyWeekday (o - pyWeekday o) = 0
        ∧ (get_weekly_schedule fetch o).schedules.length = 7
        ∧ (∀ i : Nat, i < 7 →
            (get_weekly_schedule fetch o).schedules[i]? =
              some (fmtOrd (o - pyWeekday o + i),
                fetch (fmtOrd (o - pyWeekday o + i)))
            ∧ pyWeekday (o - pyWeekday o + i) = i))
    ∧ (∀ fetch : List Char → List LessonRecord,
        (get_weekly_schedule fetch (pyOrd 2024 6 12)).week_start =
          ("2024-06-10".data))
    ∧ pyOrd 2024 6 12 - pyWeekday (pyOrd 2024 6 12) = pyOrd 2024 6 10
    ∧ pyWeekday (pyOrd 2024 6 12) = 2 := by
  refine ⟨?_, ?_, by decide, by decide⟩
  · intro fetch o
    refine ⟨rfl, pyWeekday_monday o, ?_, ?_⟩
    · show (((List.range 7).map fun j : Nat => fmtOrd (o - pyWeekday o + j)).map
          fun d => (d, fetch d)).length = 7
      rw [List.length_map, List.length_map, List.length_range]
    · intro i hi
      refine ⟨?_, pyWeekday_monday_add o i hi⟩
      show (((List.range 7).map fun j : Nat => fmtOrd (o - pyWeekday o + j)).map
          fun d => (d, fetch d))[i]? = _
      rw [List.getElem?_map, List.getElem?_map, List.getElem?_range hi]
      rfl
  · intro fetch
    exact (by decide :
      fmtOrd (pyOrd 2024 6 12 - pyWeekday (pyOrd 2024 6 12)) = ("2024-06-10".data))

/-- Witness for C9: the Wednesday entry of the week of 2024-06-12 is the
input date itself at index 2. -/
theorem claim_C9_witness :
    (get_weekly_schedule (fun _ => []) (pyOrd 2024 6 12)).schedules[2]? =
      some (("2024-06-12".data), []) :=
  ((claim_C9_week_aggregator.1 (fun _ => []) (pyOrd 2024 6 12)).2.2.2 2
      (by norm_num)).1.trans (by decide)

/-!
## Strip infrastructure for the normalizer claim
-/

lemma dropWhile_sp_idem (l : List Char) :
    (l.dropWhile isPySpace).dropWhile isPySpace = l.dropWhile isPySpace := by
  induction l with
  | nil => rfl
  | cons c cs ih =>
    rw [List.dropWhile_cons]
    by_cases h : isPySpace c = true
    · rw [if_pos h]
      exact ih
    · rw [if_neg h, List.dropWhile_cons, if_neg h]

lemma dropWhile_spaces_nil {w : List Char}
    (hw : ∀ c ∈ w, isPySpace c = true) : w.dropWhile isPySpace = [] :=
  List.dropWhile_eq_nil_iff.mpr hw

lemma dropWhile_append_spaces {w l : List Char}
    (hw : ∀ c ∈ w, isPySpace c = true) :
    (w ++ l).dropWhile isPySpace = l.dropWhile isPySpace := by
  rw [List.dropWhile_append, dropWhile_spaces_nil hw]
  simp

lemma dropWhile_append_nonspace {u v : List Char} {x : Char}
    (hx : isPySpace x = false) :
    (u ++ x :: v).dropWhile isPySpace = u.dropWhile isPySpace ++ x :: v := by
  rw [List.dropWhile_append]
  by_cases h : (u.dropWhile isPySpace).isEmpty = true
  · have h2 : u.dropWhile isPySpace = [] := by simpa [List.isEmpty_iff] using h
    rw [if_pos h, h2, List.dropWhile_cons, hx]
    simp
  · rw [if_neg h]

lemma trimEnd_eq_nil_iff (l : List Char) :
    trimEnd l = [] ↔ ∀ c ∈ l, isPySpace c = true := by
  induction l with
  | nil => simp [trimEnd]
  | cons c cs ih =>
    rw [trimEnd]
    by_cases h : ((trimEnd cs).isEmpty && isPySpace c) = true
    · rw [if_pos h]
      simp only [Bool.and_eq_true, List.isEmpty_iff] at h
      constructor
      · intro _ x hx
        rcases List.mem_cons.mp hx with rfl | hx2
        · exact h.2
        · exact (ih.mp h.1) x hx2
      · intro _
        rfl
    · rw [if_neg h]
      constructor
      · intro hc
        exact absurd hc (by simp)
      · intro hall
        refine absurd ?_ h
        have h1 : trimEnd cs = [] :=
          ih.mpr fun x hx => hall x (List.mem_cons_of_mem c hx)
        simp [List.isEmpty_iff, h1, hall c (List.mem_cons_self c cs)]

lemma trimEnd_rev (l : List Char) :
    (l.reverse.dropWhile isPySpace).reverse = trimEnd l := by
  induction l with
  | nil => rfl
  | cons c cs ih =>
    rw [List.reverse_cons, List.dropWhile_append]
    by_cases h : (cs.reverse.dropWhile isPySpace).isEmpty = true
    · have h2 : cs.reverse.dropWhile isPySpace = [] := by
        simpa [List.isEmpty_iff] using h
      have h3 : trimEnd cs = [] := by
        rw [← ih, h2, List.reverse_nil]
      rw [if_pos h, trimEnd]
      by_cases hc : isPySpace c = true
      · simp [List.dropWhile_cons, hc, h3]
      · simp [List.dropWhile_cons, hc, h3]
    · have h3 : trimEnd cs ≠ [] := by
        rw [← ih]
        simpa [List.isEmpty_iff] using h
      rw [if_neg h, List.reverse_append, trimEnd,
        if_neg (by simp [List.isEmpty_iff, h3])]
      simp [ih]

lemma pyStrip_eq (l : List Char) :
    pyStrip l = trimEnd (l.dropWhile isPySpace) := by
  rw [pyStrip, trimEnd_rev]

lemma trimEnd_idem (l : List Char) : trimEnd (trimEnd l) = trimEnd l := by
  induction l with
  | nil => rfl
  | cons c cs ih =>
    rw [trimEnd]
    by_cases h : ((trimEnd cs).isEmpty && isPySpace c) = true
    · rw [if_pos h]
      rfl
    · rw [if_neg h, trimEnd, ih, if_neg h]

lemma trimEnd_dropWhile_comm (l : List Char) :
    (trimEnd l).dropWhile isPySpace = trimEnd (l.dropWhile isPySpace) := by
  induction l with
  | nil => rfl
  | cons c cs ih =>
    rw [trimEnd, List.dropWhile_cons]
    by_cases hc : isPySpace c = true
    · rw [if_pos hc]
      by_cases h0 : (trimEnd cs).isEmpty = true
      · have h1 : trimEnd cs = [] := by simpa [List.isEmpty_iff] using h0
        have h2 : cs.dropWhile isPySpace = [] :=
          dropWhile_spaces_nil ((trimEnd_eq_nil_iff cs).mp h1)
        rw [if_pos (by simp [h0, hc]), h2]
        rfl
      · rw [if_neg (by simp [h0]), List.dropWhile_cons, if_pos hc, ih]
    · simp [trimEnd, List.dropWhile_cons, hc]

lemma pyStrip_dropWhile (l : List Char) :
    pyStrip (l.dropWhile isPySpace) = pyStrip l := by
  rw [pyStrip_eq, pyStrip_eq, dropWhile_sp_idem]

lemma pyStrip_trimEnd (l : List Char) : pyStrip (trimEnd l) = pyStrip l := by
  rw [pyStrip_eq, trimEnd_dropWhile_comm, trimEnd_idem, ← pyStrip_eq]

lemma pyStrip_idem (l : List Char) : pyStrip (pyStrip l) = pyStrip l := by
  rw [pyStrip_eq l, pyStrip_trimEnd, pyStrip_dropWhile]
  exact pyStrip_eq l

lemma trimEnd_append {X Y : List Char} (hY : trimEnd Y ≠ []) :
    trimEnd (X ++ Y) = X ++ trimEnd Y := by
  induction X with
  | nil => rfl
  | cons c X2 ih =>
    rw [List.cons_append, trimEnd, ih,
      if_neg (by simp [List.isEmpty_iff, hY]), List.cons_append]

lemma trimEnd_cons_nonspace {x : Char} (v : List Char)
    (hx : isPySpace x = false) : trimEnd (x :: v) = x :: trimEnd v := by
  rw [trimEnd, if_neg (by simp [hx])]

lemma mem_trimEnd {x : Char} {l : List Char} (h : x ∈ trimEnd l) : x ∈ l := by
  induction l with
  | nil => exact absurd h (by simp [trimEnd])
  | cons c cs ih =>
    rw [trimEnd] at h
    by_cases h0 : ((trimEnd cs).isEmpty && isPySpace c) = true
    · rw [if_pos h0] at h
      exact absurd h (by simp)
    · rw [if_neg h0] at h
      rcases List.mem_cons.mp h with rfl | h2
      · exact List.mem_cons_self x cs
      · exact List.mem_cons_of_mem c (ih h2)

lemma mem_pyStrip {x : Char} {l : List Char} (h : x ∈ pyStrip l) : x ∈ l := by
  rw [pyStrip_eq] at h
  exact (List.dropWhile_sublist isPySpace).subset (mem_trimEnd h)

/-- Stripping a string containing one pipe: the left part keeps only its
leading-space trim, the right part only its trailing-space trim. -/
lemma pyStrip_append_pipe (u v : List Char) :
    pyStrip (u ++ '|' :: v) =
      u.dropWhile isPySpace ++ '|' :: trimEnd v := by
  rw [pyStrip_eq, dropWhile_append_nonspace (by decide),
    trimEnd_append (by rw [trimEnd_cons_nonspace v (by decide)]; simp),
    trimEnd_cons_nonspace v (by decide)]

/-!
## Time-pattern lemmas
-/

lemma isPySpace_not_digit {c : Char} (h : isPySpace c = true) :
    c.isDigit = false := by
  rcases (by simpa [isPySpace] using h :
      ((((c = ' ' ∨ c = '\t') ∨ c = '\n') ∨ c = '\x0d') ∨ c = '\x0b') ∨
        c = '\x0c') with
    ((((rfl | rfl) | rfl) | rfl) | rfl) | rfl <;> decide

lemma digit_not_space {c : Char} (h : c.isDigit = true) :
    isPySpace c = false := by
  cases hs : isPySpace c with
  | false => rfl
  | true => exact absurd h (by simp [isPySpace_not_digit hs])

lemma isHM_head_digit {t : List Char} (h : isHM t = true) :
    ∃ c t2, t = c :: t2 ∧ c.isDigit = true := by
  match t, h with
  | [a, b, c, d], h =>
    refine ⟨a, [b, c, d], rfl, ?_⟩
    simp only [isHM, Bool.and_eq_true] at h
    exact h.1.1.1
  | [a, b, c, d, e], h =>
    refine ⟨a, [b, c, d, e], rfl, ?_⟩
    simp only [isHM, Bool.and_eq_true] at h
    exact h.1.1.1.1

lemma matchHM_append {t : List Char} (h : isHM t = true) (r : List Char) :
    matchHM (t ++ r) = some (t, r) := by
  match t, h with
  | [a, b, c, d], h =>
    simp only [isHM, Bool.and_eq_true, decide_eq_true_eq] at h
    obtain ⟨⟨⟨ha, hb⟩, hc⟩, hd⟩ := h
    subst hb
    cases r with
    | nil => simp [matchHM, ha, hc, hd]
    | cons x xs => simp [matchHM, ha, hc, hd]
  | [a, b, c, d, e], h =>
    simp only [isHM, Bool.and_eq_true, decide_eq_true_eq] at h
    obtain ⟨⟨⟨⟨ha, hb⟩, hc⟩, hd⟩, he⟩ := h
    subst hc
    simp [matchHM, ha, hb, hd, he]

/-- The full regex on a well-formed input `T1 w1 - w2 T2 sep rest`:
groups are the two times and the whitespace-trimmed-on-the-left rest. -/
lemma timeMatch_structured {t1 t2 w1 w2 sep rest : List Char}
    (h1 : isHM t1 = true) (h2 : isHM t2 = true)
    (hw1 : ∀ c ∈ w1, isPySpace c = true) (hw2 : ∀ c ∈ w2, isPySpace c = true)
    (hsep : ∀ c ∈ sep, isPySpace c = true)
    (hnl : '\n' ∉ rest) (hns : ∃ c ∈ rest, isPySpace c = false) :
    timeMatch (t1 ++ (w1 ++ '-' :: (w2 ++ (t2 ++ (sep ++ rest))))) =
      some (t1, t2, rest.dropWhile isPySpace) := by
  have e1 : (w1 ++ '-' :: (w2 ++ (t2 ++ (sep ++ rest)))).dropWhile isPySpace =
      '-' :: (w2 ++ (t2 ++ (sep ++ rest))) := by
    rw [dropWhile_append_spaces hw1, List.dropWhile_cons, if_neg (by decide)]
  have e2 : (w2 ++ (t2 ++ (sep ++ rest))).dropWhile isPySpace =
      t2 ++ (sep ++ rest) := by
    obtain ⟨c, t2tail, rfl, hdig⟩ := isHM_head_digit h2
    rw [dropWhile_append_spaces hw2, List.cons_append, List.dropWhile_cons,
      if_neg (by simp [digit_not_space hdig])]
  have e3 : matchTail (sep ++ rest) = some (rest.dropWhile isPySpace) := by
    rw [matchTail]
    rw [dropWhile_append_spaces hsep]
    cases hd : rest.dropWhile isPySpace with
    | nil =>
      obtain ⟨c, hc, hcs⟩ := hns
      exact absurd (List.dropWhile_eq_nil_iff.mp hd c hc) (by simp [hcs])
    | cons c t =>
      simp only [hd]
      have ht : (c :: t).takeWhile (fun x => x ≠ '\n') = c :: t := by
        refine List.takeWhile_eq_self_iff.mpr ?_
        intro x hx
        have hxr : x ∈ rest :=
          (List.dropWhile_sublist isPySpace).subset (hd ▸ hx)
        simp only [decide_eq_true_eq]
        intro hxe
        exact hnl (hxe ▸ hxr)
      rw [ht]
  simp only [timeMatch, matchHM_append h1, e1, matchHM_append h2, e2, e3]

lemma mkTypeSubject_no_pipe {time sr : List Char} (h : '|' ∉ sr) :
    mkTypeSubject time sr = .lesson time ("Не указан".data) (pyStrip sr) := by
  rw [mkTypeSubject, if_neg (by simpa using h)]

lemma mkTypeSubject_pipe {time : List Char} (a b : List Char)
    (ha : '|' ∉ a) (hb : '|' ∉ b) (hna : pyStrip a ≠ []) (hnb : pyStrip b ≠ []) :
    mkTypeSubject time (a ++ '|' :: b) =
      .lesson time (pyStrip a) (pyStrip (pyStrip b)) := by
  rw [mkTypeSubject, if_pos (by simp), pySplitCh_pair '|' ha hb]
  simp [List.filterMap_cons, List.isEmpty_iff, hna, hnb]

/-- C2: a block text `T1 w - w T2 s rest` (times `\d{1,2}:\d{2}`, `w` and
`s` whitespace, `rest` newline-free with a printable character) yields a
lesson whose time is "T1 - T2"; when `rest` is `Type | Subject` (one
pipe, both sides non-blank) the type is the trimmed left part and the
subject the trimmed right part; with no pipe the subject is the whole
trimmed rest and the type stays "Не указан". -/
theorem claim_C2_normalizer :
    ∀ (t1 t2 w1 w2 sep rest : List Char),
      isHM t1 = true → isHM t2 = true →
      (∀ c ∈ w1, isPySpace c = true) → (∀ c ∈ w2, isPySpace c = true) →
      (∀ c ∈ sep, isPySpace c = true) →
      '\n' ∉ rest → (∃ c ∈ rest, isPySpace c = false) →
      (('|' ∉ rest →
          normalizeTitle (t1 ++ (w1 ++ '-' :: (w2 ++ (t2 ++ (sep ++ rest))))) =
            .lesson (t1 ++ (" - ".data) ++ t2) ("Не указан".data) (pyStrip rest))
        ∧ (∀ u v, rest = u ++ '|' :: v → '|' ∉ u → '|' ∉ v →
            pyStrip u ≠ [] → pyStrip v ≠ [] →
            normalizeTitle (t1 ++ (w1 ++ '-' :: (w2 ++ (t2 ++ (sep ++ rest))))) =
              .lesson (t1 ++ (" - ".data) ++ t2) (pyStrip u) (pyStrip v))) := by
  intro t1 t2 w1 w2 sep rest h1 h2 hw1 hw2 hsep hnl hns
  have hdash : '-' ∈ t1 ++ (w1 ++ '-' :: (w2 ++ (t2 ++ (sep ++ rest)))) := by
    simp
  have hcond : ((t1 ++ (w1 ++ '-' :: (w2 ++ (t2 ++ (sep ++ rest))))).contains ':'
      || (t1 ++ (w1 ++ '-' :: (w2 ++ (t2 ++ (sep ++ rest))))).contains '-') =
      true := by
    simp [hdash]
  have hnorm : normalizeTitle (t1 ++ (w1 ++ '-' :: (w2 ++ (t2 ++ (sep ++ rest))))) =
      mkTypeSubject (t1 ++ (" - ".data) ++ t2) (pyStrip rest) := by
    rw [normalizeTitle, hcond]
    rw [if_neg (by simp), if_neg (by simp)]
    simp only [timeMatch_structured h1 h2 hw1 hw2 hsep hnl hns, pyStrip_dropWhile]
  refine ⟨?_, ?_⟩
  · intro hno
    rw [hnorm, mkTypeSubject_no_pipe (fun hmem => hno (mem_pyStrip hmem)),
      pyStrip_idem]
  · intro u v hrv hu hv hnu hnv
    subst hrv
    rw [hnorm, pyStrip_append_pipe u v,
      mkTypeSubject_pipe (u.dropWhile isPySpace) (trimEnd v)
        (fun hm => hu ((List.dropWhile_sublist isPySpace).subset hm))
        (fun hm => hv (mem_trimEnd hm))
        (by rw [pyStrip_dropWhile]; exact hnu)
        (by rw [pyStrip_trimEnd]; exact hnv),
      pyStrip_dropWhile, pyStrip_trimEnd, pyStrip_idem]

/-- Witness for C2: the canonical lecture line. -/
theorem claim_C2_witness :
    normalizeTitle ("10:00 - 11:30 Лекция | Алгоритмы".data) =
      .lesson ("10:00 - 11:30".data) ("Лекция".data) ("Алгоритмы".data) := by
  have h := (claim_C2_normalizer ("10:00".data) ("11:30".data) [' '] [' '] [' ']
      ("Лекция | Алгоритмы".data) (by decide) (by decide) (by decide) (by decide)
      (by decide) (by decide) (by decide)).2 ("Лекция ".data) (" Алгоритмы".data)
      (by decide) (by decide) (by decide) (by decide) (by decide)
  have e : ("10:00 - 11:30 Лекция | Алгоритмы".data) =
      ("10:00".data) ++ ([' '] ++ '-' :: ([' '] ++ (("11:30".data) ++
        ([' '] ++ ("Лекция | Алгоритмы".data))))) := by decide
  rw [e, h]
  decide
